import Mathlib

/-!
Verification of the spritesage sprite-editor core against its code.

The relevant Python modules are shallowly embedded:
* `src/utils.py`'s `UndoRedoManager` as pure step functions over a pair of
  stacks (lists whose last element is the top of the stack);
* `src/spritesheet.py`'s packer arithmetic (`next_power_of_two`,
  `determine_sheet_size`, `get_all_frame_paths`, `create_spritesheet`);
* `src/sprite_file.py`'s `SpriteFile.to_dict` / `from_dict` over POSIX paths
  represented as their component lists;
* `src/sprite_editor.py`'s AI frame-dispatch and frame-insertion loops;
* `src/exporter.py`'s traversal of animations when writing the `.tres`
  resource.
Machine integers do not overflow here (Python ints are unbounded), so `Nat`
and `Int` are used directly.
-/

namespace SpriteSage

/-! ## Undo/redo manager (src/utils.py, class UndoRedoManager)

The manager's state is the pair `(undo_stack, redo_stack)`.  Python appends
to the end of a list and `pop()` removes the end, so the TOP of each stack is
the LAST element of the Lean list; `pop(0)` removes the head (the oldest
entry).  `deepcopy` preserves value equality and is the identity in this
value-semantics embedding; Python `==` is `DecidableEq`. -/

/-- `UndoRedoManager.save_undo_state` (src/utils.py lines 116-127), with the
capacity `MAX_UNDO_COUNT` abstracted as `N`.  Returns the updated
`(undo_stack, redo_stack)` pair. -/
def save_undo_state {T : Type} [DecidableEq T] (N : Nat)
    (st : List T × List T) (s : T) : List T × List T :=
  if st.1.getLast? = some s then st
  else ((if st.1.length = N then st.1.drop 1 else st.1) ++ [s], [])

/-- `UndoRedoManager.perform_undo` (src/utils.py lines 129-137): push the
current state onto the redo stack, pop and return the top undo entry;
`none` when there is nothing to undo. -/
def perform_undo {T : Type} (st : List T × List T) (cur : T) :
    (List T × List T) × Option T :=
  match st.1.getLast? with
  | none => (st, none)
  | some s => ((st.1.dropLast, st.2 ++ [cur]), some s)

/-- `UndoRedoManager.perform_redo` (src/utils.py lines 139-148): pop the top
redo entry, push it onto the undo stack and return it; `none` when there is
nothing to redo. -/
def perform_redo {T : Type} (st : List T × List T) :
    (List T × List T) × Option T :=
  match st.2.getLast? with
  | none => (st, none)
  | some s => ((st.1 ++ [s], st.2.dropLast), some s)

/-- `MAX_UNDO_COUNT` from src/config.py line 112. -/
def MAX_UNDO_COUNT : Nat := 1000

/-- One user-visible operation on an `UndoRedoManager`. -/
inductive UndoOp (T : Type) where
  | save : T → UndoOp T
  | undo : T → UndoOp T
  | redo : UndoOp T

/-- Apply one operation to the manager state (discarding the returned
snapshot, which does not affect the stacks). -/
def applyOp {T : Type} [DecidableEq T] (N : Nat)
    (st : List T × List T) : UndoOp T → List T × List T
  | .save s => save_undo_state N st s
  | .undo cur => (perform_undo st cur).1
  | .redo => (perform_redo st).1

/-- Run a whole sequence of operations from a given manager state. -/
def applyOps {T : Type} [DecidableEq T] (N : Nat)
    (st : List T × List T) (ops : List (UndoOp T)) : List T × List T :=
  ops.foldl (applyOp N) st

/-! ## Spritesheet packer arithmetic (src/spritesheet.py) -/

/-- Halving recursion computing the bit length of a natural number, made
structural with a fuel argument; `fuel = n` is always enough because `n`
halves to 0 in at most `n` steps. -/
def bit_length_fuel : Nat → Nat → Nat
  | 0, _ => 0
  | fuel + 1, n => if n = 0 then 0 else bit_length_fuel fuel (n / 2) + 1

/-- Python `int.bit_length()` on a nonnegative integer: the number of
binary digits of `n`, with `bit_length 0 = 0`. -/
def bit_length (n : Nat) : Nat := bit_length_fuel n n

/-- `SpriteSheetGenerator.next_power_of_two` (src/spritesheet.py lines
40-53).  Python: `if n <= 0: return 1` then `1 << (n - 1).bit_length()`. -/
def next_power_of_two (n : Int) : Nat :=
  if n ≤ 0 then 1 else 1 <<< bit_length (n.toNat - 1)

/-- The `while True` doubling loop of `determine_sheet_size`
(src/spritesheet.py lines 82-87), made structurally recursive on a fuel
argument; when the fuel runs out the current side is returned, and
`sheet_size_fuel_sufficient` shows the fuel used by `determine_sheet_size`
is never exhausted for positive cell sizes and frame counts. -/
def sheet_size_loop (w h num_frames : Nat) : Nat → Nat → Nat
  | 0, side => side
  | fuel + 1, side =>
    if num_frames ≤ (side / w) * (side / h) then side
    else sheet_size_loop w h num_frames fuel (side * 2)

/-- `SpriteSheetGenerator.determine_sheet_size` (src/spritesheet.py lines
67-87): start from the next power of two above `max(width, height)` and
double until a `cols x rows` grid of `w x h` cells holds all frames.
`width`/`height` are the positive validated ints of the generator, so
Python floor division coincides with `Nat` division. -/
def determine_sheet_size (w h num_frames : Nat) : Nat :=
  sheet_size_loop w h num_frames (num_frames + 1)
    (next_power_of_two ((max w h : Nat) : Int))

/-- `x` is a power of two. -/
def IsPow2 (x : Nat) : Prop := ∃ j, x = 2 ^ j

/-! ## Sprite data model (src/sprite_file.py)

POSIX paths are embedded as their lists of `/`-separated components; an
absolute path is the list of its nonempty components (the leading `/` is
implicit, so `/a/b` is `["a", "b"]` and `/` is `[]`), and a relative path
such as the output of `relpath` is a list that may also contain `".."` and
`"."` entries.  `os.path.join(dir, rel)` is then list concatenation and the
string-level splitting/normalization done inside `posixpath` becomes
explicit list processing. -/

/-- `Animation` (src/sprite_file.py lines 13-16). -/
structure Animation where
  name : String
  frames : List (List String)
  deriving DecidableEq

/-- `SpriteFile` (src/sprite_file.py lines 19-27).  The `animations` dict
is an insertion-ordered association list, as Python dicts preserve
insertion order; `base_image` is `None` or an absolute path. -/
structure SpriteFile where
  uuid : String
  name : String
  description : String
  width : Nat
  height : Nat
  base_image : Option (List String)
  animations : List (String × Animation)
  deriving DecidableEq

/-- The serialized dictionary produced by `SpriteFile.to_dict`
(src/sprite_file.py lines 58-67): same fields, with every frame path and
the base image made relative to the sage directory. -/
structure SpriteDict where
  uuid : String
  name : String
  description : String
  width : Nat
  height : Nat
  base_image : Option (List String)
  animations : List (String × List (List String))
  deriving DecidableEq

/-- One pass of POSIX `normpath` over the components of an absolute path:
`.` is dropped, `..` removes the previously kept component (or is dropped
at the root, as `posixpath.normpath` does for absolute paths), anything
else is kept.  `acc` is the already-normalized prefix. -/
def norm_abs_aux (acc : List String) : List String → List String
  | [] => acc
  | c :: cs =>
    if c = "." then norm_abs_aux acc cs
    else if c = ".." then norm_abs_aux acc.dropLast cs
    else norm_abs_aux (acc ++ [c]) cs

/-- `posixpath.normpath` (equivalently `abspath`, the inputs being
absolute) on the component list of an absolute path. -/
def norm_abs (p : List String) : List String := norm_abs_aux [] p

/-- Length of the element-wise common prefix of two component lists
(`len(os.path.commonprefix([start_list, path_list]))`). -/
def lcp : List String → List String → Nat
  | a :: as, b :: bs => if a = b then lcp as bs + 1 else 0
  | _, _ => 0

/-- `posixpath.relpath(path, start)` for absolute `path` and `start`, on
component lists: both sides are normalized (`abspath`), the common prefix
is dropped, one `..` is emitted per remaining `start` component, and an
empty result becomes `["."]` (the string `"."`). -/
def relpath (path start : List String) : List String :=
  let p := norm_abs path
  let s := norm_abs start
  let i := lcp s p
  let rel := List.replicate (s.length - i) ".." ++ p.drop i
  if rel = [] then ["."] else rel

/-- `os.path.join(start, r)` for the relative paths `r` produced by
`relpath`: concatenation of the component lists, with no normalization
(Python's `join` does not normalize). -/
def path_join (start r : List String) : List String := start ++ r

/-- `SpriteFile.to_dict` (src/sprite_file.py lines 58-67).  `base_image`
is `None` (falsy) or an absolute path, so `self.base_image if not
self.base_image else relpath(...)` is `Option.map`. -/
def SpriteFile.to_dict (sf : SpriteFile) (sage_directory : List String) :
    SpriteDict :=
  { uuid := sf.uuid
    name := sf.name
    description := sf.description
    width := sf.width
    height := sf.height
    base_image := sf.base_image.map (fun p => relpath p sage_directory)
    animations := sf.animations.map fun pr =>
      (pr.1, pr.2.frames.map (fun p => relpath p sage_directory)) }

/-- `SpriteFile.from_dict` (src/sprite_file.py lines 29-45): joins every
relative path back onto the sage directory, iterating the animation keys
in insertion order. -/
def SpriteFile.from_dict (data : SpriteDict) (sage_directory : List String) :
    SpriteFile :=
  { uuid := data.uuid
    name := data.name
    description := data.description
    width := data.width
    height := data.height
    base_image := data.base_image.map (fun r => path_join sage_directory r)
    animations := data.animations.map fun pr =>
      (pr.1, { name := pr.1
               frames := pr.2.map (fun r => path_join sage_directory r) }) }

/-- A normalized absolute path component: nonempty and neither `.` nor
`..`. -/
def normal_comp (c : String) : Prop := c ≠ "" ∧ c ≠ "." ∧ c ≠ ".."

instance (c : String) : Decidable (normal_comp c) := by
  unfold normal_comp; infer_instance

/-- A normalized absolute path: every component is normal. -/
def normal_path (p : List String) : Prop := ∀ c ∈ p, normal_comp c

instance (p : List String) : Decidable (normal_path p) := by
  unfold normal_path; infer_instance

/-- A valid `SpriteFile` in the sense of the round-trip property: the base
image (when set) and all frame paths are normalized absolute paths. -/
def valid_sprite (sf : SpriteFile) : Prop :=
  (∀ p, sf.base_image = some p → normal_path p) ∧
  (∀ pr ∈ sf.animations, ∀ f ∈ pr.2.frames, normal_path f)

/-! ## Spritesheet generation over the data model (src/spritesheet.py) -/

/-- `SpriteSheetGenerator.get_all_frame_paths` (src/spritesheet.py lines
55-65): flatten `animations.values()` — dict insertion order — into one
frame list. -/
def get_all_frame_paths (sf : SpriteFile) : List (List String) :=
  (sf.animations.map (fun pr => pr.2.frames)).flatten

/-- The pure content of the sheet built by `create_spritesheet`: its pixel
side length and, for each frame path, the pixel origin where the (resized)
frame is pasted. -/
structure SheetLayout where
  size : Nat
  placements : List ((List String) × Nat × Nat)
  deriving DecidableEq

/-- `SpriteSheetGenerator.create_spritesheet` (src/spritesheet.py lines
89-128), up to the actual pixel I/O: raises `ValueError` on zero frames
(modelled as `Except.error` with the source's message), otherwise places
frame `idx` at `((idx % cols) * w, (idx // cols) * h)`. -/
def create_spritesheet (sf : SpriteFile) : Except String SheetLayout :=
  let frames := get_all_frame_paths sf
  if frames.length = 0 then Except.error "No frames found in sprite data."
  else
    let sheet_size := determine_sheet_size sf.width sf.height frames.length
    let cols := sheet_size / sf.width
    Except.ok
      { size := sheet_size
        placements := frames.enum.map fun pr =>
          (pr.2, (pr.1 % cols) * sf.width, (pr.1 / cols) * sf.height) }

/-! ## Export adapter traversal (src/exporter.py) -/

/-- Code-point lexicographic order on character lists, as Python compares
strings (`String.lt` itself does not reduce in the kernel, so the
comparison is spelled out). -/
def chars_lt : List Char → List Char → Bool
  | [], [] => false
  | [], _ :: _ => true
  | _ :: _, [] => false
  | a :: as, b :: bs =>
    if a.toNat < b.toNat then true
    else if b.toNat < a.toNat then false
    else chars_lt as bs

/-- Python `<` on strings. -/
def pystr_lt (a b : String) : Bool := chars_lt a.data b.data

/-- Stable insertion of an animation entry into a name-sorted list. -/
def insert_sorted (p : String × Animation) :
    List (String × Animation) → List (String × Animation)
  | [] => [p]
  | q :: qs =>
    if pystr_lt q.1 p.1 then q :: insert_sorted p qs else p :: q :: qs

/-- `sorted(self.sprite_file.animations.keys())` paired with the animations
they look up, i.e. the animation entries in lexicographic name order. -/
def sort_by_name (l : List (String × Animation)) :
    List (String × Animation) :=
  l.foldr insert_sorted []

/-- The traversal order in which `GodotSpriteExporter.export_tres`
(src/exporter.py lines 80-96) hands out the sequentially numbered
`sub_ids`: animations in `sorted(keys)` order, frames in list order.
Frame `j` of this traversal references `sub_ids[j]`, whose atlas region is
where the packer pasted frame `j` of `get_all_frame_paths`. -/
def export_frame_order (sf : SpriteFile) : List (List String) :=
  ((sort_by_name sf.animations).map (fun pr => pr.2.frames)).flatten

/-! ## AI frame dispatch (src/sprite_editor.py) -/

/-- A generation request issued to the `AIModelManager`: either
`generate_next_sprite_image` with the given input image, or
`generate_sprite_between_images` with the given pair of input images (the
base image may be `None`, which Python would pass through as the input). -/
inductive AIRequest (α : Type) where
  | next_image : Option α → AIRequest α
  | between_images : Option α → Option α → AIRequest α
  deriving DecidableEq

/-- `_add_ai_generated_frame_after` (src/sprite_editor.py lines 904-971):
the generation request issued and the index at which the result is
inserted, as a function of the animation's frames, the base image and the
currently selected frame index (`none` when no frame is selected, in which
case the code uses `current_index = 0`).  An out-of-range selection —
impossible through the GUI — would raise `IndexError`, modelled as
`none`. -/
def add_after_request {α : Type} (frames : List α) (base : Option α)
    (selected : Option Nat) : Option (AIRequest α × Nat) :=
  let current_index := selected.getD 0
  if frames.length = 0 then some (.next_image base, 0)
  else if current_index = frames.length - 1 then
    (frames.get? current_index).map
      fun f => (.between_images (some f) base, current_index + 1)
  else
    match frames.get? current_index, frames.get? (current_index + 1) with
    | some a, some b =>
      some (.between_images (some a) (some b), current_index + 1)
    | _, _ => none

/-- `_add_ai_generated_frame_before` (src/sprite_editor.py lines 842-902):
as `add_after_request`, but for insertion before position `pos`
(`pos = 0` when no frame is selected); the result is inserted at `pos`. -/
def add_before_request {α : Type} (frames : List α) (base : Option α)
    (selected : Option Nat) : Option (AIRequest α × Nat) :=
  let pos := selected.getD 0
  if frames.length = 0 then some (.next_image base, pos)
  else if pos = 0 then
    (frames.get? 0).map fun f => (.between_images base (some f), 0)
  else
    match frames.get? (pos - 1), frames.get? pos with
    | some a, some b => some (.between_images (some a) (some b), pos)
    | _, _ => none

/-! ## Frame insertion (src/sprite_editor.py, `_insert_frames_at_index`) -/

/-- Python `list.insert(i, x)` for nonnegative `i`: insert before position
`i`, clamping to the end when `i ≥ len`. -/
def py_insert {α : Type} (l : List α) (i : Nat) (x : α) : List α :=
  l.take i ++ [x] ++ l.drop i

/-- The per-path loop of `_insert_frames_at_index` (src/sprite_editor.py
lines 789-816) acting on the current animation's frame list, for incoming
paths already located under the sprite's base directory: the copy branch
(lines 792-802) is then not taken and `abs_input` is the incoming path
itself.  A path already present in the frame list is skipped; each
non-duplicate is inserted at the running index, which advances by one per
successfully inserted item. -/
def insert_frames_loop {α : Type} [DecidableEq α] :
    List α → Nat → List α → List α
  | [], _, fl => fl
  | p :: ps, idx, fl =>
    if p ∈ fl then insert_frames_loop ps idx fl
    else insert_frames_loop ps (idx + 1) (py_insert fl idx p)

/-- The incoming paths that actually get inserted: those not already
present in the frame list nor inserted earlier in the same call, in call
order.  Spec-side characterization used by the C8 theorem. -/
def new_frames {α : Type} [DecidableEq α] : List α → List α → List α
  | [], _ => []
  | p :: ps, seen =>
    if p ∈ seen then new_frames ps seen else p :: new_frames ps (p :: seen)

/-! ## Lemmas and claim theorems -/

lemma applyOp_len_inv {T : Type} [DecidableEq T] {N : Nat} (hN : 1 ≤ N)
    (st : List T × List T) (op : UndoOp T)
    (h : st.1.length + st.2.length ≤ N) :
    (applyOp N st op).1.length + (applyOp N st op).2.length ≤ N := by
  cases op with
  | save s =>
    simp only [applyOp, save_undo_state]
    split
    · exact h
    · split
      · rename_i hfull
        simp
        omega
      · rename_i hfull
        simp
        omega
  | undo cur =>
    simp only [applyOp, perform_undo]
    cases hu : st.1.getLast? with
    | none => simpa using h
    | some s =>
      have hne : st.1 ≠ [] := by
        intro he; rw [he] at hu; simp at hu
      simp [List.length_dropLast]
      have : 1 ≤ st.1.length := List.length_pos.mpr hne
      omega
  | redo =>
    simp only [applyOp, perform_redo]
    cases hr : st.2.getLast? with
    | none => simpa using h
    | some s =>
      have hne : st.2 ≠ [] := by
        intro he; rw [he] at hr; simp at hr
      simp [List.length_dropLast]
      have : 1 ≤ st.2.length := List.length_pos.mpr hne
      omega

lemma applyOps_len_inv {T : Type} [DecidableEq T] {N : Nat} (hN : 1 ≤ N)
    (ops : List (UndoOp T)) :
    ∀ st : List T × List T, st.1.length + st.2.length ≤ N →
      (applyOps N st ops).1.length + (applyOps N st ops).2.length ≤ N := by
  induction ops with
  | nil => intro st h; simpa [applyOps] using h
  | cons op ops ih =>
    intro st h
    have h1 := applyOp_len_inv hN st op h
    simpa [applyOps, List.foldl_cons] using ih (applyOp N st op) h1

lemma bit_length_fuel_lt_two_pow :
    ∀ fuel n, n ≤ fuel → n < 2 ^ bit_length_fuel fuel n := by
  intro fuel
  induction fuel with
  | zero => intro n hn; interval_cases n; simp [bit_length_fuel]
  | succ fuel ih =>
    intro n hn
    by_cases h0 : n = 0
    · simp [bit_length_fuel, h0]
    · have hhalf : n / 2 ≤ fuel := by omega
      have := ih (n / 2) hhalf
      simp only [bit_length_fuel, h0, if_false]
      have h2 : n < 2 * (n / 2) + 2 := by omega
      calc n < 2 * (n / 2) + 2 := h2
      _ = 2 * (n / 2 + 1) := by ring
      _ ≤ 2 * 2 ^ bit_length_fuel fuel (n / 2) := by
        have : n / 2 + 1 ≤ 2 ^ bit_length_fuel fuel (n / 2) := this
        omega
      _ = 2 ^ (bit_length_fuel fuel (n / 2) + 1) := by ring

lemma bit_length_fuel_le :
    ∀ fuel n m, n ≤ fuel → n < 2 ^ m → bit_length_fuel fuel n ≤ m := by
  intro fuel
  induction fuel with
  | zero => intro n m hn hm; simp [bit_length_fuel]
  | succ fuel ih =>
    intro n m hn hm
    by_cases h0 : n = 0
    · simp [bit_length_fuel, h0]
    · simp only [bit_length_fuel, h0, if_false]
      have hm0 : m ≠ 0 := by
        intro he
        rw [he] at hm
        omega
      obtain ⟨m', rfl⟩ : ∃ m', m = m' + 1 := ⟨m - 1, by omega⟩
      have hhalf : n / 2 < 2 ^ m' := by
        have : (2 : Nat) ^ (m' + 1) = 2 * 2 ^ m' := by ring
        omega
      have := ih (n / 2) m' (by omega) hhalf
      omega

lemma lt_two_pow_bit_length (n : Nat) : n < 2 ^ bit_length n :=
  bit_length_fuel_lt_two_pow n n (le_refl n)

lemma bit_length_le_of_lt_pow {n m : Nat} (h : n < 2 ^ m) :
    bit_length n ≤ m :=
  bit_length_fuel_le n n m (le_refl n) h

lemma next_power_of_two_pow2 (n : Int) : IsPow2 (next_power_of_two n) := by
  unfold next_power_of_two
  split
  · exact ⟨0, rfl⟩
  · exact ⟨bit_length (n.toNat - 1), by rw [Nat.one_shiftLeft]⟩

lemma le_next_power_of_two (n : Int) : n ≤ (next_power_of_two n : Int) := by
  unfold next_power_of_two
  split
  · omega
  · rename_i hpos
    rw [Nat.one_shiftLeft]
    have h1 : n.toNat - 1 < 2 ^ bit_length (n.toNat - 1) :=
      lt_two_pow_bit_length _
    have h2 : 0 < n := by omega
    have h3 : n.toNat ≤ 2 ^ bit_length (n.toNat - 1) := by omega
    omega

lemma next_power_of_two_min (n : Int) (m : Nat) (hm : IsPow2 m)
    (h : n ≤ (m : Int)) : next_power_of_two n ≤ m := by
  obtain ⟨j, rfl⟩ := hm
  unfold next_power_of_two
  split
  · exact Nat.one_le_two_pow
  · rename_i hpos
    rw [Nat.one_shiftLeft]
    have h2 : 0 < n := by omega
    have h3 : n.toNat ≤ 2 ^ j := by omega
    have h4 : n.toNat - 1 < 2 ^ j := by omega
    exact Nat.pow_le_pow_right (by omega) (bit_length_le_of_lt_pow h4)

lemma sheet_size_loop_spec (w h nf : Nat) :
    ∀ fuel side,
      (∃ k, k < fuel ∧ nf ≤ (side * 2 ^ k / w) * (side * 2 ^ k / h)) →
      (∃ j, sheet_size_loop w h nf fuel side = side * 2 ^ j) ∧
      nf ≤ (sheet_size_loop w h nf fuel side / w) *
        (sheet_size_loop w h nf fuel side / h) ∧
      (∀ j, side * 2 ^ j < sheet_size_loop w h nf fuel side →
        (side * 2 ^ j / w) * (side * 2 ^ j / h) < nf) := by
  intro fuel
  induction fuel with
  | zero =>
    intro side h
    obtain ⟨k, hk, _⟩ := h
    omega
  | succ fuel ih =>
    intro side hex
    by_cases ht : nf ≤ (side / w) * (side / h)
    · have hres : sheet_size_loop w h nf (fuel + 1) side = side := by
        simp [sheet_size_loop, ht]
      refine ⟨⟨0, by simpa using hres⟩, by simpa [hres] using ht, ?_⟩
      intro j hj
      rw [hres] at hj
      have : side ≤ side * 2 ^ j := Nat.le_mul_of_pos_right _ (Nat.pos_pow_of_pos _ (by omega))
      omega
    · have hres : sheet_size_loop w h nf (fuel + 1) side
          = sheet_size_loop w h nf fuel (side * 2) := by
        simp [sheet_size_loop, ht]
      obtain ⟨k, hk, hkt⟩ := hex
      have hk0 : k ≠ 0 := by
        intro h0
        rw [h0] at hkt
        simp at hkt
        exact ht hkt
      obtain ⟨k', rfl⟩ : ∃ k', k = k' + 1 := ⟨k - 1, by omega⟩
      have harg : side * 2 ^ (k' + 1) = side * 2 * 2 ^ k' := by ring
      have hex' : ∃ k, k < fuel ∧
          nf ≤ (side * 2 * 2 ^ k / w) * (side * 2 * 2 ^ k / h) := by
        refine ⟨k', by omega, ?_⟩
        rw [harg] at hkt
        exact hkt
      obtain ⟨⟨j, hj⟩, hfit, hmin⟩ := ih (side * 2) hex'
      rw [hres]
      refine ⟨⟨j + 1, by rw [hj]; ring⟩, hfit, ?_⟩
      intro j' hj'
      cases j' with
      | zero =>
        simpa using ht
      | succ j'' =>
        have : side * 2 * 2 ^ j'' < sheet_size_loop w h nf fuel (side * 2) := by
          have he : side * 2 ^ (j'' + 1) = side * 2 * 2 ^ j'' := by ring
          rw [he] at hj'
          exact hj'
        have := hmin j'' this
        have he : side * 2 ^ (j'' + 1) = side * 2 * 2 ^ j'' := by ring
        rw [he]
        exact this

lemma sheet_size_fuel_sufficient (w h nf : Nat) (hw : 1 ≤ w) (hh : 1 ≤ h)
    (hn : 1 ≤ nf) :
    let side := next_power_of_two ((max w h : Nat) : Int)
    ∃ k, k < nf + 1 ∧ nf ≤ (side * 2 ^ k / w) * (side * 2 ^ k / h) := by
  intro side
  have hside : (max w h : Nat) ≤ side := by
    have := le_next_power_of_two ((max w h : Nat) : Int)
    exact_mod_cast this
  have hsw : w ≤ side := le_trans (Nat.le_max_left w h) hside
  have hsh : h ≤ side := le_trans (Nat.le_max_right w h) hside
  refine ⟨nf, by omega, ?_⟩
  have hcw : 2 ^ nf ≤ side * 2 ^ nf / w := by
    rw [Nat.le_div_iff_mul_le (by omega)]
    calc 2 ^ nf * w = w * 2 ^ nf := by ring
    _ ≤ side * 2 ^ nf := Nat.mul_le_mul_right _ hsw
  have hch : 2 ^ nf ≤ side * 2 ^ nf / h := by
    rw [Nat.le_div_iff_mul_le (by omega)]
    calc 2 ^ nf * h = h * 2 ^ nf := by ring
    _ ≤ side * 2 ^ nf := Nat.mul_le_mul_right _ hsh
  have hp : nf ≤ 2 ^ nf := Nat.le_of_lt (Nat.lt_two_pow nf)
  calc nf ≤ 2 ^ nf := hp
  _ = 2 ^ nf * 1 := by ring
  _ ≤ 2 ^ nf * 2 ^ nf := Nat.mul_le_mul_left _ Nat.one_le_two_pow
  _ ≤ (side * 2 ^ nf / w) * (side * 2 ^ nf / h) := Nat.mul_le_mul hcw hch

/-- **C6.** For all frame counts `nf ≥ 1` and positive cell sizes `(w, h)`,
`determine_sheet_size` returns a power-of-two side with
`(side / w) * (side / h) ≥ nf` such that no smaller power of two satisfies
that inequality; and `next_power_of_two n` is the smallest power of two
`≥ n`, returning 1 for every `n ≤ 0`. -/
theorem sheet_size_spec (w h nf : Nat) (hw : 1 ≤ w) (hh : 1 ≤ h)
    (hn : 1 ≤ nf) :
    IsPow2 (determine_sheet_size w h nf) ∧
    nf ≤ (determine_sheet_size w h nf / w) * (determine_sheet_size w h nf / h) ∧
    (∀ t, IsPow2 t → t < determine_sheet_size w h nf →
      (t / w) * (t / h) < nf) ∧
    ∀ n : Int, IsPow2 (next_power_of_two n) ∧ n ≤ (next_power_of_two n : Int) ∧
      (∀ m, IsPow2 m → n ≤ (m : Int) → next_power_of_two n ≤ m) ∧
      (n ≤ 0 → next_power_of_two n = 1) := by
  have hex := sheet_size_fuel_sufficient w h nf hw hh hn
  obtain ⟨⟨j, hj⟩, hfit, hmin⟩ :=
    sheet_size_loop_spec w h nf (nf + 1)
      (next_power_of_two ((max w h : Nat) : Int)) hex
  have hd : determine_sheet_size w h nf
      = sheet_size_loop w h nf (nf + 1)
        (next_power_of_two ((max w h : Nat) : Int)) := rfl
  obtain ⟨b, hb⟩ := next_power_of_two_pow2 ((max w h : Nat) : Int)
  refine ⟨?_, ?_, ?_, ?_⟩
  · exact ⟨b + j, by rw [hd, hj, hb, pow_add]⟩
  · rw [hd]; exact hfit
  · rintro t ⟨a, ha⟩ hlt
    by_cases hcase : t < next_power_of_two ((max w h : Nat) : Int)
    · have hmax : t < max w h := by
        by_contra hge
        push_neg at hge
        have := next_power_of_two_min ((max w h : Nat) : Int) t ⟨a, ha⟩
          (by exact_mod_cast hge)
        omega
      have h0 : t / w = 0 ∨ t / h = 0 := by
        rcases Nat.lt_or_ge t w with hw' | hw'
        · exact Or.inl (Nat.div_eq_of_lt hw')
        · exact Or.inr (Nat.div_eq_of_lt (by omega))
      rcases h0 with h0 | h0
      · rw [h0]; simpa using hn
      · rw [h0]; simpa using hn
    · push_neg at hcase
      have hba : b ≤ a := by
        have h2 : (2 : Nat) ^ b ≤ 2 ^ a := by rw [← hb, ← ha]; exact hcase
        exact (Nat.pow_le_pow_iff_right (by omega)).mp h2
      have ht' : t = next_power_of_two ((max w h : Nat) : Int) * 2 ^ (a - b) := by
        rw [ha, hb, ← pow_add]
        congr 1
        omega
      rw [ht'] at hlt ⊢
      rw [hd] at hlt
      exact hmin (a - b) hlt
  · intro n
    exact ⟨next_power_of_two_pow2 n, le_next_power_of_two n,
      fun m hm hle => next_power_of_two_min n m hm hle,
      fun hneg => by simp [next_power_of_two, hneg]⟩

/-- Witness for `sheet_size_spec` at cell size 3x3 with 5 frames: the sheet
side is 16 and a 5x5 grid of cells fits the 5 frames. -/
theorem sheet_size_spec_witness :
    5 ≤ (determine_sheet_size 3 3 5 / 3) * (determine_sheet_size 3 3 5 / 3) :=
  (sheet_size_spec 3 3 5 (by decide) (by decide) (by decide)).2.1

/-- **C4.** For every sequence of save_undo_state / perform_undo /
perform_redo operations starting from a fresh UndoRedoManager with capacity
`N ≥ 1`, the undo stack never holds more than `N` entries, and a
save_undo_state push that finds the stack at capacity (and is not deduped
as a repeat of the top entry) evicts exactly the oldest undo entry first. -/
theorem undo_stack_bounded {T : Type} [DecidableEq T] (N : Nat) (hN : 1 ≤ N)
    (ops : List (UndoOp T)) :
    (applyOps N (([], []) : List T × List T) ops).1.length ≤ N ∧
    ∀ (st : List T × List T) (s : T), st.1.length = N →
      st.1.getLast? ≠ some s →
      (save_undo_state N st s).1 = st.1.drop 1 ++ [s] := by
  constructor
  · have h := applyOps_len_inv hN ops ([], []) (by simp)
    omega
  · intro st s hlen hne
    simp [save_undo_state, hne, hlen]

/-- Witness for `undo_stack_bounded` at capacity 1 with two pushes. -/
theorem undo_stack_bounded_witness :
    (applyOps 1 (([], []) : List Nat × List Nat)
      [UndoOp.save 0, UndoOp.save 1]).1.length ≤ 1 :=
  (undo_stack_bounded 1 (by decide) [UndoOp.save 0, UndoOp.save 1]).1

/-- **C5.** For pairwise-distinct states `s0, s1, s2` and a fresh manager,
after `save_undo_state s0` and `save_undo_state s1` (the commits leading to
current state `s2`): `perform_undo s2` returns `s1`, a further
`perform_undo s1` returns `s0`, and the two subsequent `perform_redo` calls
return `s1` and then `s2`, in that order. -/
theorem undo_redo_round_trip {T : Type} [DecidableEq T] (s0 s1 s2 : T)
    (h01 : s0 ≠ s1) (h02 : s0 ≠ s2) (h12 : s1 ≠ s2) :
    (perform_undo (save_undo_state MAX_UNDO_COUNT
        (save_undo_state MAX_UNDO_COUNT (([], []) : List T × List T) s0) s1)
        s2).2 = some s1 ∧
    (perform_undo (perform_undo (save_undo_state MAX_UNDO_COUNT
        (save_undo_state MAX_UNDO_COUNT (([], []) : List T × List T) s0) s1)
        s2).1 s1).2 = some s0 ∧
    (perform_redo (perform_undo (perform_undo (save_undo_state MAX_UNDO_COUNT
        (save_undo_state MAX_UNDO_COUNT (([], []) : List T × List T) s0) s1)
        s2).1 s1).1).2 = some s1 ∧
    (perform_redo (perform_redo (perform_undo (perform_undo
        (save_undo_state MAX_UNDO_COUNT
          (save_undo_state MAX_UNDO_COUNT (([], []) : List T × List T) s0) s1)
        s2).1 s1).1).1).2 = some s2 := by
  have hA : save_undo_state MAX_UNDO_COUNT (([], []) : List T × List T) s0
      = ([s0], []) := by
    simp [save_undo_state, MAX_UNDO_COUNT]
  have hB : save_undo_state MAX_UNDO_COUNT (([s0], []) : List T × List T) s1
      = ([s0, s1], []) := by
    simp [save_undo_state, MAX_UNDO_COUNT, h01]
  have hC : perform_undo (([s0, s1], []) : List T × List T) s2
      = (([s0], [s2]), some s1) := by
    simp [perform_undo]
  have hD : perform_undo (([s0], [s2]) : List T × List T) s1
      = (([], [s2, s1]), some s0) := by
    simp [perform_undo]
  have hE : perform_redo (([], [s2, s1]) : List T × List T)
      = (([s1], [s2]), some s1) := by
    simp [perform_redo]
  have hF : perform_redo (([s1], [s2]) : List T × List T)
      = (([s1, s2], []), some s2) := by
    simp [perform_redo]
  simp [hA, hB, hC, hD, hE, hF]

/-- Witness for `undo_redo_round_trip` at the states 0, 1, 2. -/
theorem undo_redo_round_trip_witness :
    (perform_undo (save_undo_state MAX_UNDO_COUNT
        (save_undo_state MAX_UNDO_COUNT (([], []) : List Nat × List Nat) 0) 1)
        2).2 = some 1 ∧
    (perform_undo (perform_undo (save_undo_state MAX_UNDO_COUNT
        (save_undo_state MAX_UNDO_COUNT (([], []) : List Nat × List Nat) 0) 1)
        2).1 1).2 = some 0 ∧
    (perform_redo (perform_undo (perform_undo (save_undo_state MAX_UNDO_COUNT
        (save_undo_state MAX_UNDO_COUNT (([], []) : List Nat × List Nat) 0) 1)
        2).1 1).1).2 = some 1 ∧
    (perform_redo (perform_redo (perform_undo (perform_undo
        (save_undo_state MAX_UNDO_COUNT
          (save_undo_state MAX_UNDO_COUNT (([], []) : List Nat × List Nat) 0) 1)
        2).1 1).1).1).2 = some 2 :=
  undo_redo_round_trip 0 1 2 (by decide) (by decide) (by decide)

/-- **C10.** Calling `save_undo_state` with a state value-equal to the
current top of the undo stack leaves the whole manager state unchanged; in
particular the redo stack is not cleared. -/
theorem save_undo_noop_on_equal_top {T : Type} [DecidableEq T] (N : Nat)
    (st : List T × List T) (s : T) (h : st.1.getLast? = some s) :
    save_undo_state N st s = st := by
  simp [save_undo_state, h]

/-- Witness for `save_undo_noop_on_equal_top`: a no-change save leaves a
pending redo entry in place. -/
theorem save_undo_noop_on_equal_top_witness :
    save_undo_state MAX_UNDO_COUNT (([0], [5]) : List Nat × List Nat) 0
      = ([0], [5]) :=
  save_undo_noop_on_equal_top MAX_UNDO_COUNT ([0], [5]) 0 (by decide)

/-- **C1.** The claim fails on the code: `get_all_frame_paths` flattens
`animations.values()` in dict insertion order, while `export_tres` assigns
the sequential `sub_ids` walking `sorted(animations.keys())`.  For a
sprite whose animations were inserted as `walk`, `idle`, the packer pastes
walk's frame first, but the exporter hands the first atlas sub-region to
`idle` — the two traversals disagree, so the `idle` entry of the exported
resource references the sub-region holding `walk`'s pixels. -/
theorem packer_exporter_order_mismatch :
    get_all_frame_paths
        ⟨"u", "s", "", 8, 8, none,
          [("walk", ⟨"walk", [["w0"]]⟩), ("idle", ⟨"idle", [["i0"]]⟩)]⟩
      = [["w0"], ["i0"]] ∧
    export_frame_order
        ⟨"u", "s", "", 8, 8, none,
          [("walk", ⟨"walk", [["w0"]]⟩), ("idle", ⟨"idle", [["i0"]]⟩)]⟩
      = [["i0"], ["w0"]] ∧
    get_all_frame_paths
        ⟨"u", "s", "", 8, 8, none,
          [("walk", ⟨"walk", [["w0"]]⟩), ("idle", ⟨"idle", [["i0"]]⟩)]⟩
      ≠ export_frame_order
        ⟨"u", "s", "", 8, 8, none,
          [("walk", ⟨"walk", [["w0"]]⟩), ("idle", ⟨"idle", [["i0"]]⟩)]⟩ := by
  decide

/-- **C2 counterexample.** For the two-frame animation `["A", "B"]` with
base image `"X"` and no frame selected, the code issues
`generate between (A, B)` and inserts at index 1 — not, as claimed,
`generate between (B, X)` with insertion at index 2 (end of list). -/
theorem add_after_no_selection_counterexample :
    add_after_request ["A", "B"] (some "X") none
      ≠ some (.between_images (some "B") (some "X"), 2) := by
  decide

/-- **C2 (amended).** When the AI "add frame after" operation runs with no
frame selected on a non-empty animation, the position is treated as index
0, not end-of-list: with a single frame the engine requests
`generate between [frames[0], base_image]` (which coincides with the
claimed end-of-list behavior) and inserts at index 1; with two or more
frames it requests `generate between [frames[0], frames[1]]` and inserts
at index 1. -/
theorem add_after_no_selection {α : Type} (f0 : α) (rest : List α)
    (base : Option α) :
    add_after_request (f0 :: rest) base none
      = some (match rest with
        | [] => (.between_images (some f0) base, 1)
        | f1 :: _ => (.between_images (some f0) (some f1), 1)) := by
  cases rest with
  | nil => simp [add_after_request]
  | cons f1 r => simp [add_after_request]

/-- **C3.** For an animation `[A, B, C]` with base image `X`: AI "add
frame after" at selected index 2 requests `generate between (C, X)` and
inserts the generated image `Y` at index 3; AI "add frame before" at
selected index 0 requests `generate between (X, A)` and inserts `Y` at
index 0. -/
theorem ai_boundary_requests {α : Type} [DecidableEq α] (A B C X Y : α) :
    add_after_request [A, B, C] (some X) (some 2)
      = some (.between_images (some C) (some X), 3) ∧
    add_before_request [A, B, C] (some X) (some 0)
      = some (.between_images (some X) (some A), 0) ∧
    (Y ∉ [A, B, C] → insert_frames_loop [Y] 3 [A, B, C] = [A, B, C, Y]) ∧
    (Y ∉ [A, B, C] → insert_frames_loop [Y] 0 [A, B, C] = [Y, A, B, C]) := by
  refine ⟨rfl, rfl, ?_, ?_⟩
  · intro h
    simp [insert_frames_loop, py_insert, h]
  · intro h
    simp [insert_frames_loop, py_insert, h]

/-- Witness for `ai_boundary_requests` at the frames 0, 1, 2, base 3 and
generated image 4. -/
theorem ai_boundary_requests_witness :
    add_after_request [0, 1, 2] (some 3) (some 2)
      = some (.between_images (some 2) (some 3), 3) ∧
    insert_frames_loop [4] 3 [0, 1, 2] = [0, 1, 2, 4] :=
  ⟨(ai_boundary_requests 0 1 2 3 4).1,
    (ai_boundary_requests 0 1 2 3 4).2.2.1 (by decide)⟩

lemma py_insert_take {α : Type} :
    ∀ (fl : List α) (idx : Nat) (p : α),
      (py_insert fl idx p).take (idx + 1) = fl.take idx ++ [p] := by
  intro fl
  induction fl with
  | nil => intro idx p; simp [py_insert]
  | cons x xs ih =>
    intro idx p
    cases idx with
    | zero => simp [py_insert]
    | succ n =>
      have : py_insert (x :: xs) (n + 1) p = x :: py_insert xs n p := by
        simp [py_insert]
      rw [this, List.take_succ_cons, ih, List.take_succ_cons]
      simp

lemma py_insert_drop {α : Type} :
    ∀ (fl : List α) (idx : Nat) (p : α),
      (py_insert fl idx p).drop (idx + 1) = fl.drop idx := by
  intro fl
  induction fl with
  | nil => intro idx p; simp [py_insert]
  | cons x xs ih =>
    intro idx p
    cases idx with
    | zero => simp [py_insert]
    | succ n =>
      have : py_insert (x :: xs) (n + 1) p = x :: py_insert xs n p := by
        simp [py_insert]
      rw [this, List.drop_succ_cons, ih, List.drop_succ_cons]

lemma mem_py_insert {α : Type} (fl : List α) (idx : Nat) (p x : α) :
    x ∈ py_insert fl idx p ↔ x = p ∨ x ∈ fl := by
  unfold py_insert
  constructor
  · intro h
    rcases List.mem_append.mp h with h | h
    · rcases List.mem_append.mp h with h | h
      · exact Or.inr (List.mem_of_mem_take h)
      · exact Or.inl (by simpa using h)
    · exact Or.inr (List.mem_of_mem_drop h)
  · intro h
    rcases h with rfl | h
    · exact List.mem_append.mpr (Or.inl (List.mem_append.mpr (Or.inr (by simp))))
    · rw [← List.take_append_drop idx fl] at h
      rcases List.mem_append.mp h with h | h
      · exact List.mem_append.mpr (Or.inl (List.mem_append.mpr (Or.inl h)))
      · exact List.mem_append.mpr (Or.inr h)

lemma new_frames_congr {α : Type} [DecidableEq α] :
    ∀ (ps : List α) (s₁ s₂ : List α), (∀ x, x ∈ s₁ ↔ x ∈ s₂) →
      new_frames ps s₁ = new_frames ps s₂ := by
  intro ps
  induction ps with
  | nil => intro s₁ s₂ h; rfl
  | cons p ps ih =>
    intro s₁ s₂ h
    simp only [new_frames]
    by_cases hp : p ∈ s₁
    · rw [if_pos hp, if_pos ((h p).mp hp), ih s₁ s₂ h]
    · have hp2 : p ∉ s₂ := fun hx => hp ((h p).mpr hx)
      rw [if_neg hp, if_neg hp2]
      congr 1
      apply ih
      intro x
      simp [h x]

lemma not_mem_new_frames {α : Type} [DecidableEq α] :
    ∀ (ps seen : List α) (p : α), p ∈ seen → p ∉ new_frames ps seen := by
  intro ps
  induction ps with
  | nil => intro seen p hp; simp [new_frames]
  | cons q qs ih =>
    intro seen p hp
    simp only [new_frames]
    by_cases hq : q ∈ seen
    · rw [if_pos hq]
      exact ih seen p hp
    · rw [if_neg hq]
      intro hmem
      rcases List.mem_cons.mp hmem with rfl | hmem
      · exact hq hp
      · exact ih (q :: seen) p (List.mem_cons_of_mem _ hp) hmem

lemma mem_new_frames_or_seen {α : Type} [DecidableEq α] :
    ∀ (ps seen : List α) (p : α), p ∈ ps →
      p ∈ new_frames ps seen ∨ p ∈ seen := by
  intro ps
  induction ps with
  | nil => intro seen p hp; simp at hp
  | cons q qs ih =>
    intro seen p hp
    simp only [new_frames]
    by_cases hq : q ∈ seen
    · rw [if_pos hq]
      rcases List.mem_cons.mp hp with rfl | hp
      · exact Or.inr hq
      · exact ih seen p hp
    · rw [if_neg hq]
      rcases List.mem_cons.mp hp with rfl | hp
      · exact Or.inl (List.mem_cons_self _ _)
      · rcases ih (q :: seen) p hp with h | h
        · exact Or.inl (List.mem_cons_of_mem _ h)
        · rcases List.mem_cons.mp h with rfl | h
          · exact Or.inl (List.mem_cons_self _ _)
          · exact Or.inr h

lemma insert_frames_loop_eq {α : Type} [DecidableEq α] :
    ∀ (ps : List α) (idx : Nat) (fl : List α),
      insert_frames_loop ps idx fl
        = fl.take idx ++ new_frames ps fl ++ fl.drop idx := by
  intro ps
  induction ps with
  | nil =>
    intro idx fl
    simp [insert_frames_loop, new_frames]
  | cons p ps ih =>
    intro idx fl
    by_cases hp : p ∈ fl
    · rw [insert_frames_loop, if_pos hp, ih idx fl]
      simp only [new_frames, if_pos hp]
    · rw [insert_frames_loop, if_neg hp, ih (idx + 1) (py_insert fl idx p)]
      have h3 : new_frames ps (py_insert fl idx p) = new_frames ps (p :: fl) := by
        apply new_frames_congr
        intro x
        rw [mem_py_insert, List.mem_cons]
      rw [py_insert_take, py_insert_drop, h3]
      simp only [new_frames, if_neg hp]
      simp

/-- **C8.** The insert-frames loop over an animation's frame list (for
paths already under the sprite's base directory): its result is the old
list with the block of new (non-duplicate) paths spliced in at the running
index; every incoming path already present keeps its occurrence count
(nothing is added for it), and every incoming path ends up present. -/
theorem insert_frames_spec {α : Type} [DecidableEq α]
    (ps : List α) (idx : Nat) (fl : List α) :
    insert_frames_loop ps idx fl
      = fl.take idx ++ new_frames ps fl ++ fl.drop idx ∧
    (∀ p, p ∈ fl → (insert_frames_loop ps idx fl).count p = fl.count p) ∧
    (∀ p, p ∈ ps → p ∈ insert_frames_loop ps idx fl) := by
  refine ⟨insert_frames_loop_eq ps idx fl, ?_, ?_⟩
  · intro p hp
    rw [insert_frames_loop_eq ps idx fl]
    have hz : (new_frames ps fl).count p = 0 :=
      List.count_eq_zero.mpr (not_mem_new_frames ps fl p hp)
    have h4 : fl.take idx ++ fl.drop idx = fl := List.take_append_drop idx fl
    conv_rhs => rw [← h4]
    simp [List.count_append, hz]
    rw [← List.count_append, h4]
  · intro p hp
    rw [insert_frames_loop_eq ps idx fl]
    rcases mem_new_frames_or_seen ps fl p hp with h | h
    · simp [h]
    · rw [← List.take_append_drop idx fl] at h
      rcases List.mem_append.mp h with h | h
      · simp [h]
      · simp [h]

/-- Witness for `insert_frames_spec`: inserting `["x", "b"]` at index 1
into `["a", "b"]` does not add a second `"b"`. -/
theorem insert_frames_spec_witness :
    (insert_frames_loop ["x", "b"] 1 ["a", "b"]).count "b"
      = (["a", "b"] : List String).count "b" :=
  (insert_frames_spec ["x", "b"] 1 ["a", "b"]).2.1 "b" (by decide)

/-- **C9.** A sprite whose animations contain zero frames in total makes
`create_spritesheet` fail with the explicit "no frames" `ValueError`
rather than producing any sheet. -/
theorem create_spritesheet_zero_frames (sf : SpriteFile)
    (h : (sf.animations.map (fun pr => pr.2.frames.length)).sum = 0) :
    create_spritesheet sf = Except.error "No frames found in sprite data." := by
  have hlen : (get_all_frame_paths sf).length = 0 := by
    rw [get_all_frame_paths, List.length_flatten]
    simpa [List.map_map, Function.comp] using h
  simp [create_spritesheet, hlen]

/-- Witness for `create_spritesheet_zero_frames` on a sprite with one
empty animation. -/
theorem create_spritesheet_zero_frames_witness :
    create_spritesheet ⟨"u", "s", "", 8, 8, none, [("idle", ⟨"idle", []⟩)]⟩
      = Except.error "No frames found in sprite data." :=
  create_spritesheet_zero_frames _ (by decide)

lemma norm_abs_aux_normal :
    ∀ (t acc : List String), normal_path t → norm_abs_aux acc t = acc ++ t := by
  intro t
  induction t with
  | nil => intro acc ht; simp [norm_abs_aux]
  | cons c cs ih =>
    intro acc ht
    have hc : normal_comp c := ht c (List.mem_cons_self _ _)
    have hcs : normal_path cs := fun x hx => ht x (List.mem_cons_of_mem _ hx)
    rw [norm_abs_aux, if_neg hc.2.1, if_neg hc.2.2, ih (acc ++ [c]) hcs]
    simp

lemma norm_abs_eq_self {p : List String} (hp : normal_path p) :
    norm_abs p = p := by
  simpa using norm_abs_aux_normal p [] hp

lemma norm_abs_aux_append :
    ∀ (xs ys acc : List String),
      norm_abs_aux acc (xs ++ ys) = norm_abs_aux (norm_abs_aux acc xs) ys := by
  intro xs
  induction xs with
  | nil => intro ys acc; simp [norm_abs_aux]
  | cons c cs ih =>
    intro ys acc
    by_cases h1 : c = "."
    · rw [List.cons_append, norm_abs_aux, if_pos h1, norm_abs_aux, if_pos h1,
        ih]
    · by_cases h2 : c = ".."
      · rw [List.cons_append, norm_abs_aux, if_neg h1, if_pos h2,
          norm_abs_aux, if_neg h1, if_pos h2, ih]
      · rw [List.cons_append, norm_abs_aux, if_neg h1, if_neg h2,
          norm_abs_aux, if_neg h1, if_neg h2, ih]

lemma norm_abs_aux_replicate_parent :
    ∀ (k : Nat) (acc : List String), k ≤ acc.length →
      norm_abs_aux acc (List.replicate k "..") = acc.take (acc.length - k) := by
  intro k
  induction k with
  | zero => intro acc h; simp [norm_abs_aux]
  | succ k ih =>
    intro acc h
    rw [List.replicate_succ, norm_abs_aux, if_neg (by decide), if_pos rfl,
      ih acc.dropLast (by rw [List.length_dropLast]; omega),
      List.length_dropLast, List.dropLast_eq_take, List.take_take]
    congr 1
    omega

lemma lcp_le_left : ∀ a b : List String, lcp a b ≤ a.length := by
  intro a
  induction a with
  | nil => intro b; cases b <;> simp [lcp]
  | cons x xs ih =>
    intro b
    cases b with
    | nil => simp [lcp]
    | cons y ys =>
      simp only [lcp]
      split
      · have := ih ys; simp; omega
      · simp

lemma lcp_le_right : ∀ a b : List String, lcp a b ≤ b.length := by
  intro a
  induction a with
  | nil => intro b; cases b <;> simp [lcp]
  | cons x xs ih =>
    intro b
    cases b with
    | nil => simp [lcp]
    | cons y ys =>
      simp only [lcp]
      split
      · have := ih ys; simp; omega
      · simp

lemma lcp_take_eq : ∀ a b : List String,
    a.take (lcp a b) = b.take (lcp a b) := by
  intro a
  induction a with
  | nil => intro b; cases b <;> simp [lcp]
  | cons x xs ih =>
    intro b
    cases b with
    | nil => simp [lcp]
    | cons y ys =>
      simp only [lcp]
      split
      · rename_i hxy
        rw [List.take_succ_cons, List.take_succ_cons, hxy, ih ys]
      · simp

lemma lcp_self : ∀ a : List String, lcp a a = a.length := by
  intro a
  induction a with
  | nil => simp [lcp]
  | cons x xs ih => simp [lcp, ih]

lemma normal_path_drop {p : List String} (i : Nat) (hp : normal_path p) :
    normal_path (p.drop i) :=
  fun c hc => hp c (List.mem_of_mem_drop hc)

lemma norm_abs_join_relpath (p d : List String) (hp : normal_path p)
    (hd : normal_path d) :
    norm_abs (path_join d (relpath p d)) = p := by
  have hnp : norm_abs p = p := norm_abs_eq_self hp
  have hnd : norm_abs d = d := norm_abs_eq_self hd
  have hle : lcp d p ≤ d.length := lcp_le_left d p
  have hlp : lcp d p ≤ p.length := lcp_le_right d p
  by_cases hrel :
      List.replicate (d.length - lcp d p) ".." ++ p.drop (lcp d p) = []
  · have h1 := List.append_eq_nil.mp hrel
    have hk : d.length - lcp d p = 0 := by
      have := h1.1
      rwa [List.replicate_eq_nil_iff] at this
    have hdrop : p.length ≤ lcp d p := by
      have := h1.2
      rwa [List.drop_eq_nil_iff] at this
    have hid : lcp d p = d.length := by omega
    have hip : lcp d p = p.length := by omega
    have hpd : p = d := by
      have h2 : p.take (lcp d p) = p := List.take_of_length_le (by omega)
      have h3 : d.take (lcp d p) = d := List.take_of_length_le (by omega)
      rw [← h2, ← lcp_take_eq d p, h3]
    have hdot : relpath p d = ["."] := by
      simp only [relpath, hnp, hnd]
      rw [if_pos hrel]
    rw [hdot, path_join, norm_abs, norm_abs_aux_append,
      norm_abs_aux_normal d [] hd]
    simp only [List.nil_append]
    rw [norm_abs_aux, if_pos rfl, norm_abs_aux, hpd]
  · have hrp : relpath p d
        = List.replicate (d.length - lcp d p) ".." ++ p.drop (lcp d p) := by
      simp only [relpath, hnp, hnd]
      rw [if_neg hrel]
    rw [hrp, path_join, norm_abs, norm_abs_aux_append,
      norm_abs_aux_normal d [] hd]
    simp only [List.nil_append]
    rw [norm_abs_aux_append,
      norm_abs_aux_replicate_parent (d.length - lcp d p) d (by omega),
      norm_abs_aux_normal _ _ (normal_path_drop _ hp)]
    have htake : d.length - (d.length - lcp d p) = lcp d p := by omega
    rw [htake, lcp_take_eq d p, List.take_append_drop]

lemma relpath_congr {q q' d : List String} (h : norm_abs q = norm_abs q') :
    relpath q d = relpath q' d := by
  simp only [relpath, h]

lemma relpath_join_relpath (p d : List String) (hp : normal_path p)
    (hd : normal_path d) :
    relpath (path_join d (relpath p d)) d = relpath p d :=
  relpath_congr ((norm_abs_join_relpath p d hp hd).trans
    (norm_abs_eq_self hp).symm)

/-- **C7.** For every valid `SpriteFile` (base image absent or a
normalized absolute path, all frame paths normalized absolute paths) and
every normalized absolute sage directory `d`, serializing, deserializing
and serializing again yields the identical dictionary:
`to_dict (from_dict (to_dict x d) d) d = to_dict x d` — path
relativization is stable and idempotent. -/
theorem sprite_serialize_roundtrip (sf : SpriteFile) (d : List String)
    (hd : normal_path d) (hv : valid_sprite sf) :
    SpriteFile.to_dict (SpriteFile.from_dict (SpriteFile.to_dict sf d) d) d
      = SpriteFile.to_dict sf d := by
  obtain ⟨hbase, hframes⟩ := hv
  unfold SpriteFile.to_dict SpriteFile.from_dict
  simp only [SpriteDict.mk.injEq, Option.map_map, List.map_map]
  refine ⟨trivial, trivial, trivial, trivial, trivial, ?_, ?_⟩
  · cases hb : sf.base_image with
    | none => rfl
    | some p =>
      show some (relpath (path_join d (relpath p d)) d) = some (relpath p d)
      rw [relpath_join_relpath p d (hbase p hb) hd]
  · apply List.map_congr_left
    intro pr hpr
    show (pr.1, List.map (fun p => relpath p d)
          (List.map (fun r => path_join d r)
            (List.map (fun p => relpath p d) pr.2.frames)))
        = (pr.1, List.map (fun p => relpath p d) pr.2.frames)
    refine congrArg (Prod.mk pr.1) ?_
    rw [List.map_map, List.map_map]
    apply List.map_congr_left
    intro f hf
    show relpath (path_join d (relpath f d)) d = relpath f d
    exact relpath_join_relpath f d (hframes pr hpr f hf) hd

/-- Witness for `sprite_serialize_roundtrip` on a one-animation sprite
under the sage directory `/proj`. -/
theorem sprite_serialize_roundtrip_witness :
    SpriteFile.to_dict
        (SpriteFile.from_dict
          (SpriteFile.to_dict
            ⟨"u", "s", "", 8, 8, some ["proj", "base.png"],
              [("idle", ⟨"idle", [["proj", "frames", "f0.png"]]⟩)]⟩
            ["proj"])
          ["proj"])
        ["proj"]
      = SpriteFile.to_dict
          ⟨"u", "s", "", 8, 8, some ["proj", "base.png"],
            [("idle", ⟨"idle", [["proj", "frames", "f0.png"]]⟩)]⟩
          ["proj"] :=
  sprite_serialize_roundtrip _ ["proj"] (by decide)
    ⟨by intro p hp; cases hp; decide, by decide⟩

end SpriteSage
